import Mathlib

/-!
Verification of the execution and job-control subsystem of the smallsh shell
(src/main.c), as a shallow embedding: pure functions for line handling,
expansion and parsing, and explicit state passing for the shell loop, the
background-job registry and the fork/exec paths.  C int values are modelled
as Int where signedness matters (pids, status) and as Nat for array indices
and counts; strings are lists of characters.
-/

namespace Smallsh

/-- Termination of a child process as observed through waitpid: a normal exit
carrying the 8-bit exit code (WEXITSTATUS) or death by a signal carrying the
signal number (WTERMSIG). -/
inductive Outcome where
  | exited : Nat → Outcome
  | signaled : Nat → Outcome
deriving DecidableEq

/-- C isspace in the default locale: space, tab, newline, vertical tab,
form feed, carriage return. -/
def isspaceChar (c : Char) : Bool :=
  c = ' ' || c = '\t' || c = '\n' || c = Char.ofNat 11 || c = Char.ofNat 12 || c = '\r'

/-- Line-skipping test of the inner read loop (src/main.c line 95):
the loop re-prompts while the first character of the freshly read line is
whitespace or the comment marker.  Only character 0 is inspected; an empty
string has first character NUL, which is neither. -/
def skip_line : List Char → Bool
  | [] => false
  | c :: _ => isspaceChar c || c = '#'

/-- Follows the spec text for claim C4, not the source: a line is skipped when
it is blank/whitespace-only or its first non-space character is the comment
marker. -/
def spec_skip_line (line : List Char) : Bool :=
  line.all isspaceChar || ((line.dropWhile isspaceChar).head? == some '#')

/-- strstr(str_pointer, "$$") (src/main.c lines 155 and 167): split the string
at the first occurrence of the two-character token, returning the prefix
before the occurrence and the suffix after it, or none when no occurrence
exists. -/
def findDD : List Char → Option (List Char × List Char)
  | [] => none
  | [_] => none
  | c1 :: c2 :: rest =>
    if c1 = '$' ∧ c2 = '$' then some ([], rest)
    else
      match findDD (c2 :: rest) with
      | none => none
      | some pr => some (c1 :: pr.1, pr.2)

/-- The suffix returned by findDD is strictly shorter than the input (the
occurrence itself is consumed); needed for termination of the expansion
loop below. -/
def findDD_suffix_length : ∀ (s : List Char) (pr : List Char × List Char),
    findDD s = some pr → pr.2.length < s.length := by
  intro s
  induction s with
  | nil => intro pr h; simp [findDD] at h
  | cons c1 t ih =>
    intro pr h
    match t with
    | [] => simp [findDD] at h
    | c2 :: rest =>
      by_cases hdd : c1 = '$' ∧ c2 = '$'
      · rw [findDD, if_pos hdd] at h
        cases h
        simp
        omega
      · rw [findDD, if_neg hdd] at h
        cases hfd : findDD (c2 :: rest) with
        | none => rw [hfd] at h; cases h
        | some pr2 =>
          rw [hfd] at h
          cases h
          have := ih pr2 hfd
          simp at this ⊢
          omega

/-- variable_expansion (src/main.c lines 144-174): repeatedly split at the
first occurrence of the token (the strstr loop), emitting the prefix and then
the pid string in place of the token; once no occurrence remains, emit the
residue minus its final character (the final strncat passes strlen-1 to strip
the newline; on an empty residue the size_t underflow makes it append nothing,
which dropLast on the empty list also does). -/
def variable_expansion (pid : List Char) (s : List Char) : List Char :=
  match h : findDD s with
  | none => s.dropLast
  | some pr => pr.1 ++ pid ++ variable_expansion pid pr.2
termination_by s.length
decreasing_by exact findDD_suffix_length s pr h

/-- sprintf(pid, "%d", getpid()) (src/main.c line 152): the decimal string of
the shell process identifier. -/
def pid_string (p : Nat) : List Char := (Nat.repr p).data

/-- Follows the spec text for claim C2, not the source: scan left to right,
replacing each non-overlapping occurrence of the token by the pid string and
keeping every other character of the line verbatim. -/
def expandSpec (pid : List Char) : List Char → List Char
  | [] => []
  | [c] => [c]
  | c1 :: c2 :: rest =>
    if c1 = '$' ∧ c2 = '$' then pid ++ expandSpec pid rest
    else c1 :: expandSpec pid (c2 :: rest)

/-- Whether the line contains the expansion token at all. -/
def hasDD (s : List Char) : Bool := (findDD s).isSome

/-- Structured command record (src/main.c lines 27-34).  args_count is the
length of args; the exec-boundary NULL sentinel of the C code is an
implementation detail of execvp and is not part of the record. -/
structure CommandLine where
  command : List Char
  args : List (List Char)
  input_file : Option (List Char)
  output_file : Option (List Char)
  run_in_background : Bool
deriving DecidableEq

/-- Token-consuming loop of parse_command_line (src/main.c lines 202-227),
over the strtok_r(" ") token list of the expanded line.  On a bare redirection
operator the code unconditionally fetches the next token and takes its strlen;
when no token follows, strtok_r returned NULL and the dereference is undefined
behaviour, modelled as none.  Repeated operators overwrite the previous
path. -/
def parse_args_loop : List (List Char) → List (List Char) → Option (List Char) →
    Option (List Char) → Option (List (List Char) × Option (List Char) × Option (List Char))
  | [], args, inf, outf => some (args, inf, outf)
  | t :: rest, args, inf, outf =>
    if t = ['<'] then
      match rest with
      | [] => none
      | f :: rest2 => parse_args_loop rest2 args (some f) outf
    else if t = ['>'] then
      match rest with
      | [] => none
      | f :: rest2 => parse_args_loop rest2 args inf (some f)
    else
      parse_args_loop rest (args ++ [t]) inf outf

/-- parse_command_line (src/main.c lines 183-243) on the token list of the
line: the first token is the command and first argument; remaining tokens are
consumed by parse_args_loop; finally a trailing ampersand argument (only
checked when there are at least two arguments) sets run_in_background and is
removed from the argument list.  An empty token list makes the C code call
strlen(NULL), modelled as none. -/
def parse_command_line (tokens : List (List Char)) : Option CommandLine :=
  match tokens with
  | [] => none
  | cmd :: rest =>
    match parse_args_loop rest [cmd] none none with
    | none => none
    | some (args, inf, outf) =>
      if 1 < args.length ∧ args.getLast? = some ['&'] then
        some ⟨cmd, args.dropLast, inf, outf, true⟩
      else
        some ⟨cmd, args, inf, outf, false⟩

/-- Background-job registry: the calloc(100, sizeof(int)) block of
src/main.c line 83 modelled as an unbounded store of int slots, together with
bg_proc_count.  Valid storage is the first registry_capacity slots. -/
structure Registry where
  mem : Nat → Int
  count : Nat

/-- Number of slots allocated for the registry (calloc(100, ...),
src/main.c line 83). -/
def registry_capacity : Nat := 100

/-- Tracked pids in order: the first count slots. -/
def Registry.toList (reg : Registry) : List Int :=
  (List.range reg.count).map reg.mem

/-- Registration step of fork_child (src/main.c lines 414-417): when the
command is marked for background and foreground-only mode is off, the child
pid is written at index bg_proc_count and the count incremented; there is no
capacity check in the source.  The second component reports the raw index
written, none when no write happened. -/
def fork_register (run_in_background : Bool) (foreground_only : Bool)
    (reg : Registry) (spawn_pid : Int) : Registry × Option Nat :=
  if run_in_background && !foreground_only then
    (⟨fun j => if j = reg.count then spawn_pid else reg.mem j, reg.count + 1⟩, some reg.count)
  else (reg, none)

/-- waitpid(pid, &status, WNOHANG) for a positive pid, with the set of
children already reaped during this pass as explicit state: a reaped pid
yields -1 (ECHILD), a terminated unreaped pid yields the pid itself, a live
child yields 0.  Non-blocking by construction. -/
def waitpid_nohang (term : Int → Option Outcome) (reaped : List Int) (pid : Int) : Int :=
  if pid ∈ reaped then -1
  else
    match term pid with
    | some _ => pid
    | none => 0

/-- remove_val_at_index (src/main.c lines 381-387): shift the slots above
index down by one and decrement the length.  For count = 0 the C int length
would go to -1; the Nat model saturates at 0, a state the reap pass never
reaches (it removes only slots it has just matched). -/
def remove_val_at_index (mem : Nat → Int) (count : Nat) (index : Nat) :
    (Nat → Int) × Nat :=
  (fun j => if index ≤ j ∧ j + 1 < count then mem (j + 1) else mem j, count - 1)

/-- State carried through one reap pass: the registry storage and count, the
pids already reaped by waitpid during the pass, and the completion reports
printed so far (pid with exit or signal outcome, in print order). -/
structure ReapState where
  mem : Nat → Int
  count : Nat
  reaped : List Int
  reports : List (Int × Outcome)

/-- Loop body of check_background_procs (src/main.c lines 354-374): i runs to
the stale bound arr_length captured before the loop; a successful waitpid
removes the slot (the i -= 1 of the source cancels the for-increment, so the
recursive call keeps the same i) and appends a report.  The source loop always
terminates (each removal reaps a fresh pid); the fuel argument makes the
recursion structural and is supplied large enough by the caller below. -/
def check_bg_loop (term : Int → Option Outcome) (arr_length : Nat) :
    Nat → Nat → ReapState → ReapState
  | 0, _, st => st
  | fuel + 1, i, st =>
    if i < arr_length then
      if waitpid_nohang term st.reaped (st.mem i) = st.mem i then
        check_bg_loop term arr_length fuel i
          ⟨(remove_val_at_index st.mem st.count i).1,
           (remove_val_at_index st.mem st.count i).2,
           st.mem i :: st.reaped,
           match term (st.mem i) with
           | some o => st.reports ++ [(st.mem i, o)]
           | none => st.reports⟩
      else
        check_bg_loop term arr_length fuel (i + 1) st
    else st

/-- The tracked pids whose children have not terminated, in order. -/
def alive_filter (term : Int → Option Outcome) (l : List Int) : List Int :=
  l.filter (fun p => (term p).isNone)

/-- The completion reports for the terminated pids of a list, in order. -/
def reports_of (term : Int → Option Outcome) (l : List Int) : List (Int × Outcome) :=
  l.filterMap (fun q => (term q).map (fun o => (q, o)))

/-- Result of one reap pass.  The status field mirrors the int *status
parameter of the C function, which the body never writes. -/
structure ReapOut where
  regs : Registry
  status : Int
  reports : List (Int × Outcome)

/-- check_background_procs (src/main.c lines 349-375): snapshot the count
as arr_length, then run the waitpid/remove/report loop from index 0 with no
pid yet reaped.  2 * count + 1 fuel strictly bounds the number of loop
iterations (at most count index increments and count removals). -/
def check_background_procs (term : Int → Option Outcome) (reg : Registry)
    (status : Int) : ReapOut :=
  let fin := check_bg_loop term reg.count (2 * reg.count + 1) 0 ⟨reg.mem, reg.count, [], []⟩
  ⟨⟨fin.mem, fin.count⟩, status, fin.reports⟩

/-- Shell-side mutable state the claims are about: the last foreground status
int and the background-job registry. -/
structure ShellState where
  status : Int
  regs : Registry

/-- display_status (src/main.c lines 300-308): the status built-in prints the
exit-value message when the stored int is 0 or 1 and the terminated-by-signal
message for every other value. -/
def display_status (status : Int) : String :=
  if status = 0 || status = 1 then "exit value " ++ toString status ++ "\n"
  else "terminated by signal " ++ toString status ++ "\n"

/-- WEXITSTATUS / WTERMSIG classification used by fork_child (src/main.c
lines 454-461): the int stored into status is the exit code on normal exit
and the signal number on abnormal termination. -/
def outcomeToStatus : Outcome → Int
  | Outcome.exited c => (c : Int)
  | Outcome.signaled s => (s : Int)

/-- Result of the parent side of fork_child: updated status and registry,
whether the pid was registered, whether the parent blocked in waitpid on the
child, and the messages printed. -/
structure ForkResult where
  status : Int
  regs : Registry
  registered : Bool
  waited : Bool
  printed : List String

/-- Parent side of fork_child (src/main.c lines 406-465).  The volatile
foreground_only flag is read twice on this path: at the registration test of
line 414 (fg1) and at the wait-vs-return test of line 444 (fg2); a SIGTSTP
between the two reads makes them differ.  spawn_pid is the fork return value
and outcome the eventual termination of the child, consumed by the blocking
waitpid of line 451 in the foreground branch. -/
def fork_child (cmd : CommandLine) (fg1 fg2 : Bool) (st : ShellState)
    (spawn_pid : Int) (outcome : Outcome) : ForkResult :=
  let rr := fork_register cmd.run_in_background fg1 st.regs spawn_pid
  if cmd.run_in_background && !fg2 then
    ⟨st.status, rr.1, rr.2.isSome, false,
      ["background PID is " ++ toString spawn_pid ++ "\n"]⟩
  else
    match outcome with
    | Outcome.exited c => ⟨(c : Int), rr.1, rr.2.isSome, true, []⟩
    | Outcome.signaled s =>
      ⟨(s : Int), rr.1, rr.2.isSome, true,
        ["terminated by signal " ++ toString s ++ "\n"]⟩

/-- Success or failure of each host call made inside the child between fork
and exec: the open and dup2 calls of the two redirect functions and the
execvp call itself. -/
structure ChildEnv where
  open_input_ok : Bool
  dup_input_ok : Bool
  open_null_in_ok : Bool
  dup_null_in_ok : Bool
  open_output_ok : Bool
  dup_output_ok : Bool
  open_null_out_ok : Bool
  dup_null_out_ok : Bool
  exec_ok : Bool

/-- Outcome of one redirect function: whether the child proceeds (false means
it exited with status 1 inside the function) and whether the null-device
fallback branch for background-eligible commands was taken. -/
structure RedirResult where
  proceed : Bool
  null_fallback : Bool

/-- input_redirect (src/main.c lines 476-513): with an input path, open it
read-only and dup2 onto stdin, exiting the child with status 1 on failure;
with no input path, a command that is background-marked while foreground-only
mode is off gets stdin bound to the null device instead. -/
def input_redirect (cmd : CommandLine) (foreground_only : Bool)
    (env : ChildEnv) : RedirResult :=
  match cmd.input_file with
  | some _ => ⟨env.open_input_ok && env.dup_input_ok, false⟩
  | none =>
    if cmd.run_in_background && !foreground_only then
      ⟨env.open_null_in_ok && env.dup_null_in_ok, true⟩
    else ⟨true, false⟩

/-- output_redirect (src/main.c lines 524-561): symmetric to input_redirect
with the output path opened write-only, created and truncated. -/
def output_redirect (cmd : CommandLine) (foreground_only : Bool)
    (env : ChildEnv) : RedirResult :=
  match cmd.output_file with
  | some _ => ⟨env.open_output_ok && env.dup_output_ok, false⟩
  | none =>
    if cmd.run_in_background && !foreground_only then
      ⟨env.open_null_out_ok && env.dup_null_out_ok, true⟩
    else ⟨true, false⟩

/-- How the child code path ends: image replacement by execvp, or child-local
exit with a status (the exit(1) calls of the redirect functions and of the
execvp failure path). -/
inductive ChildEnd where
  | execed : List Char → List (List Char) → ChildEnd
  | failed : Nat → ChildEnd
deriving DecidableEq

/-- Observable result of the child side of fork_child: the SIGINT disposition
installed (true = default/terminable, false = ignored), how the child ended,
and whether each null-device fallback branch was taken. -/
structure ChildResult where
  sigint_default : Bool
  ending : ChildEnd
  input_null : Bool
  output_null : Bool
deriving DecidableEq

/-- Child side of fork_child (src/main.c lines 423-441), sequential: restore
default SIGINT when !run_in_background || !foreground_only (the source
condition, which also restores it for background-eligible children), ignore
SIGTSTP, run input then output redirection (each may exit the child with
status 1), then execvp, whose failure also exits with status 1.
foreground_only here is the child address space copy of the flag at its read
in line 427. -/
def child_run (cmd : CommandLine) (foreground_only : Bool)
    (env : ChildEnv) : ChildResult :=
  let sigint_default := !cmd.run_in_background || !foreground_only
  let ir := input_redirect cmd foreground_only env
  if !ir.proceed then ⟨sigint_default, ChildEnd.failed 1, ir.null_fallback, false⟩
  else
    let orr := output_redirect cmd foreground_only env
    if !orr.proceed then ⟨sigint_default, ChildEnd.failed 1, ir.null_fallback, orr.null_fallback⟩
    else if env.exec_ok then
      ⟨sigint_default, ChildEnd.execed cmd.command cmd.args, ir.null_fallback, orr.null_fallback⟩
    else ⟨sigint_default, ChildEnd.failed 1, ir.null_fallback, orr.null_fallback⟩

/-- handle_command_line (src/main.c lines 267-292): the cd and status
built-ins run in-process and return the shell state unchanged apart from the
working directory; every other command goes to fork_child.  chdir_ok is the
success of the chdir call inside change_dir. -/
def handle_command_line (cmd : CommandLine) (st : ShellState) (chdir_ok : Bool)
    (fg1 fg2 : Bool) (spawn_pid : Int) (outcome : Outcome) :
    ShellState × List String :=
  if cmd.command = "cd".data then
    (st, if chdir_ok then [] else ["Error changing directories.\n"])
  else if cmd.command = "status".data then
    (st, [display_status st.status])
  else
    let r := fork_child cmd fg1 fg2 st spawn_pid outcome
    (⟨r.status, r.regs⟩, r.printed)

/-- kill_children (src/main.c lines 655-668): every tracked pid is sent
SIGKILL and non-blockingly reaped; the function reads only the registry and
returns the list of pids killed. -/
def kill_children (reg : Registry) : List Int := Registry.toList reg

/-- Exit path of main (src/main.c lines 109-117): on the exit keyword the
shell kills its tracked children and stops; no other shell state is
touched. -/
def shell_exit (st : ShellState) : ShellState × List Int :=
  (st, kill_children st.regs)

/-- One turn of the inner read loop of main (src/main.c lines 89-95): reap
background children, read a line, and decide whether it will be dispatched
(second component true) or silently skipped. -/
def shell_iteration (term : Int → Option Outcome) (st : ShellState)
    (line : List Char) : ShellState × Bool :=
  let r := check_background_procs term st.regs st.status
  (⟨r.status, r.regs⟩, !skip_line line)

/-- Message list printed by the foreground branch of fork_child for a given
child outcome: nothing on a normal exit, the terminated-by-signal line on a
signal death (src/main.c lines 454-461). -/
def signal_report : Outcome → List String
  | Outcome.exited _ => []
  | Outcome.signaled s => ["terminated by signal " ++ toString s ++ "\n"]

/-- Fresh shell state: status 0, empty registry. -/
def st0 : ShellState := ⟨0, ⟨fun _ => 0, 0⟩⟩

/-- A plain foreground external command. -/
def fg_cmd : CommandLine := ⟨"wc".data, ["wc".data], none, none, false⟩

/-- A background-marked external command. -/
def bg_cmd : CommandLine := ⟨"sleep".data, ["sleep".data, "5".data], none, none, true⟩

/-- A foreground command redirecting input from a file. -/
def wc_in_cmd : CommandLine := ⟨"wc".data, ["wc".data], some "missing".data, none, false⟩

/-- Child environment in which every host call succeeds. -/
def env_all_ok : ChildEnv := ⟨true, true, true, true, true, true, true, true, true⟩

/-- Child environment in which opening the input file fails. -/
def env_no_input : ChildEnv := ⟨false, true, true, true, true, true, true, true, true⟩

/-- A registry already holding 100 tracked pids. -/
def reg_full : Registry := ⟨fun _ => 0, 100⟩

/-- Termination snapshot for the reap-pass witness: pid 3 exited normally,
pid 7 was killed by signal 9, pid 5 still runs. -/
def term_w : Int → Option Outcome := fun p =>
  if p = 3 then some (Outcome.exited 0)
  else if p = 7 then some (Outcome.signaled 9)
  else none

/-- A registry tracking pids 3, 5 and 7. -/
def reg_w : Registry := ⟨fun j => [3, 5, 7].getD j 0, 3⟩

/-- Claim C1 (code bug): display_status classifies purely by the stored int —
0 or 1 prints the exit-value message, every other value the signal message —
so after a foreground command exits normally with code 2 the stored status is
2 and the status built-in prints "terminated by signal 2" instead of the
claimed "exit value 2".  The signal-9 half of the claim does hold. -/
theorem c1_display_status_misclassifies_exit2 :
    display_status (fork_child fg_cmd false false st0 77 (Outcome.exited 2)).status
      = "terminated by signal 2\n" ∧
    "terminated by signal 2\n" ≠ "exit value 2\n" ∧
    display_status (fork_child fg_cmd false false st0 77 (Outcome.signaled 9)).status
      = "terminated by signal 9\n" := by
  refine ⟨rfl, by decide, rfl⟩

/-- Claim C5 (code bug): fork_child's registration writes the new pid at
index bg_proc_count with no capacity check; with 100 pids already tracked the
write lands at index 100, outside the 100-slot calloc block, contradicting
the claim that registration fails rather than writing past the bound. -/
theorem c5_register_writes_past_capacity :
    (fork_register true false reg_full 4242).2 = some 100 ∧
    ¬ (100 < registry_capacity) := by
  refine ⟨rfl, by decide⟩

/-- Claim C6 (counterexample): background eligibility is re-read at each
decision site, not latched at launch; with the toggle off at the registration
read and on at the wait read, a background-marked command is both registered
and synchronously waited for, which no single launch-time decision allows. -/
theorem c6_cex_toggle_flip_mid_launch :
    ¬ ∀ (cmd : CommandLine) (fg1 fg2 : Bool) (st : ShellState) (pid : Int) (o : Outcome),
        (fork_child cmd fg1 fg2 st pid o).waited
          = !(fork_child cmd fg1 fg2 st pid o).registered := by
  intro h
  exact absurd (h bg_cmd false true st0 55 (Outcome.exited 0)) (by decide)

/-- The registration decision of fork_child follows the toggle value read at
the registration site (fg1). -/
theorem fork_child_registered (cmd : CommandLine) (fg1 fg2 : Bool) (st : ShellState)
    (pid : Int) (o : Outcome) :
    (fork_child cmd fg1 fg2 st pid o).registered = (cmd.run_in_background && !fg1) := by
  cases hb1 : cmd.run_in_background && !fg1 <;> cases hb2 : cmd.run_in_background && !fg2 <;>
    cases o <;> simp [fork_child, fork_register, hb1, hb2]

/-- The wait decision of fork_child follows the toggle value read at the
wait site (fg2). -/
theorem fork_child_waited (cmd : CommandLine) (fg1 fg2 : Bool) (st : ShellState)
    (pid : Int) (o : Outcome) :
    (fork_child cmd fg1 fg2 st pid o).waited = !(cmd.run_in_background && !fg2) := by
  cases hb2 : cmd.run_in_background && !fg2 <;> cases o <;> simp [fork_child, hb2]

/-- The null-device fallback of input_redirect is taken exactly for a
background-eligible command without an input path. -/
theorem input_redirect_null (cmd : CommandLine) (f : Bool) (env : ChildEnv) :
    (input_redirect cmd f env).null_fallback
      = ((cmd.run_in_background && !f) && cmd.input_file.isNone) := by
  cases hin : cmd.input_file <;> cases hb : cmd.run_in_background && !f <;>
    simp [input_redirect, hin, hb]

/-- The null-device fallback of output_redirect is taken exactly for a
background-eligible command without an output path. -/
theorem output_redirect_null (cmd : CommandLine) (f : Bool) (env : ChildEnv) :
    (output_redirect cmd f env).null_fallback
      = ((cmd.run_in_background && !f) && cmd.output_file.isNone) := by
  cases hout : cmd.output_file <;> cases hb : cmd.run_in_background && !f <;>
    simp [output_redirect, hout, hb]

/-- The child restores default SIGINT exactly when the source condition
(!run_in_background || !foreground_only) holds. -/
theorem child_run_sigint (cmd : CommandLine) (f : Bool) (env : ChildEnv) :
    (child_run cmd f env).sigint_default = !(cmd.run_in_background && f) := by
  rw [child_run]
  cases hp1 : (input_redirect cmd f env).proceed <;>
    cases hp2 : (output_redirect cmd f env).proceed <;>
      cases he : env.exec_ok <;> simp [hp1, hp2, he]

/-- Claim C6 (amended): each decision site recomputes eligibility from the
toggle; when every read during one launch sees the same toggle value f, the
registration, the parent wait-vs-return choice and both null-device fallbacks
all follow the single decision run_in_background && !f, while the child's
SIGINT disposition follows the coupled source condition !(run_in_background
&& f); a flip between reads breaks the agreement (see the counterexample). -/
theorem c6_consistent_toggle_single_decision (cmd : CommandLine) (f : Bool)
    (st : ShellState) (pid : Int) (o : Outcome) (env : ChildEnv) :
    (fork_child cmd f f st pid o).registered = (cmd.run_in_background && !f) ∧
    (fork_child cmd f f st pid o).waited = !(cmd.run_in_background && !f) ∧
    (input_redirect cmd f env).null_fallback
      = ((cmd.run_in_background && !f) && cmd.input_file.isNone) ∧
    (output_redirect cmd f env).null_fallback
      = ((cmd.run_in_background && !f) && cmd.output_file.isNone) ∧
    (child_run cmd f env).sigint_default = !(cmd.run_in_background && f) :=
  ⟨fork_child_registered cmd f f st pid o, fork_child_waited cmd f f st pid o,
   input_redirect_null cmd f env, output_redirect_null cmd f env,
   child_run_sigint cmd f env⟩

/-- Claim C7: for a command that is not background-eligible at launch the
parent blocks in waitpid on that specific child and, before control returns
to the loop, stores the exit code into status on a normal exit, or prints the
terminated-by-signal message and stores the signal number on death by
signal. -/
theorem c7_foreground_wait_stores_status (cmd : CommandLine) (f : Bool)
    (st : ShellState) (pid : Int) (o : Outcome)
    (h : (cmd.run_in_background && !f) = false) :
    (fork_child cmd f f st pid o).waited = true ∧
    (fork_child cmd f f st pid o).status = outcomeToStatus o ∧
    (fork_child cmd f f st pid o).printed = signal_report o := by
  cases o <;> simp [fork_child, h, outcomeToStatus, signal_report]

/-- Concrete instantiation of claim C7: a foreground command killed by signal
11 is waited for, stores status 11 and prints the signal report. -/
theorem c7_witness :
    (fg_cmd.run_in_background && !false) = false ∧
    ((fork_child fg_cmd false false st0 77 (Outcome.signaled 11)).waited = true ∧
     (fork_child fg_cmd false false st0 77 (Outcome.signaled 11)).status
       = outcomeToStatus (Outcome.signaled 11) ∧
     (fork_child fg_cmd false false st0 77 (Outcome.signaled 11)).printed
       = signal_report (Outcome.signaled 11)) :=
  ⟨by decide,
   c7_foreground_wait_stores_status fg_cmd false st0 77 (Outcome.signaled 11) (by decide)⟩

/-- Claim C8: the cd and status built-ins, the background reap pass and the
exit path leave the last-foreground-status int unchanged; the only way a
dispatch changes it is the foreground branch of fork_child, in which the
parent waited for the child. -/
theorem c8_status_frame (term : Int → Option Outcome) (st : ShellState)
    (cmd : CommandLine) (chdir_ok fg1 fg2 : Bool) (pid : Int) (o : Outcome) :
    ((cmd.command = "cd".data ∨ cmd.command = "status".data) →
        (handle_command_line cmd st chdir_ok fg1 fg2 pid o).1.status = st.status) ∧
    (check_background_procs term st.regs st.status).status = st.status ∧
    (shell_exit st).1.status = st.status ∧
    ((handle_command_line cmd st chdir_ok fg1 fg2 pid o).1.status ≠ st.status →
        (fork_child cmd fg1 fg2 st pid o).waited = true) := by
  refine ⟨?_, rfl, rfl, ?_⟩
  · rintro (h | h)
    · simp [handle_command_line, h]
    · rw [handle_command_line, if_neg (by rw [h]; decide), if_pos h]
  · intro hne
    by_cases h1 : cmd.command = "cd".data
    · exact absurd (by simp [handle_command_line, h1]) hne
    · by_cases h2 : cmd.command = "status".data
      · exact absurd (by rw [handle_command_line, if_neg h1, if_pos h2]) hne
      · by_cases hb : (cmd.run_in_background && !fg2) = true
        · exact absurd (by rw [handle_command_line, if_neg h1, if_neg h2]
                           simp [fork_child, hb]) hne
        · cases o <;> simp [fork_child, hb]

/-- Concrete instantiation of claim C8: dispatching the status built-in with
a nonzero stored status leaves the status unchanged. -/
theorem c8_witness :
    (handle_command_line ⟨"status".data, ["status".data], none, none, false⟩
        ⟨3, ⟨fun _ => 0, 0⟩⟩ true false false 5 (Outcome.exited 0)).1.status
      = (⟨3, ⟨fun _ => 0, 0⟩⟩ : ShellState).status :=
  (c8_status_frame (fun _ => none) ⟨3, ⟨fun _ => 0, 0⟩⟩
      ⟨"status".data, ["status".data], none, none, false⟩
      true false false 5 (Outcome.exited 0)).1 (Or.inr rfl)

/-- Claim C3 (counterexample): a foreground command whose input file cannot
be opened does terminate before image replacement, but the shell state is not
left unchanged: the parent waits for the failed child and stores its exit
status 1 into the last-foreground-status int, changing it from 0 to 1. -/
theorem c3_cex_missing_input_updates_status :
    (child_run wc_in_cmd false env_no_input).ending = ChildEnd.failed 1 ∧
    (handle_command_line wc_in_cmd st0 true false false 77 (Outcome.exited 1)).1.status = 1 ∧
    st0.status = 0 ∧ (1 : Int) ≠ 0 := by
  refine ⟨by decide, by decide, rfl, by decide⟩

/-- Claim C3 (amended): when the input file cannot be opened the child exits
with status 1 inside input_redirect, before execvp; a foreground dispatch
then records that failure status 1 in the last-foreground-status int through
the ordinary wait path, while a background-eligible dispatch leaves the
status unchanged.  The registry and the rest of the shell state are untouched
in the child either way (the failure is child-local). -/
theorem c3_input_open_failure (cmd : CommandLine) (f : Bool) (env : ChildEnv)
    (st : ShellState) (pid : Int)
    (hin : cmd.input_file.isSome = true) (hopen : env.open_input_ok = false) :
    (child_run cmd f env).ending = ChildEnd.failed 1 ∧
    ((cmd.run_in_background && !f) = false →
        (fork_child cmd f f st pid (Outcome.exited 1)).status = 1) ∧
    ((cmd.run_in_background && !f) = true →
        ∀ o, (fork_child cmd f f st pid o).status = st.status) := by
  obtain ⟨v, hv⟩ := Option.isSome_iff_exists.mp hin
  have hproc : (input_redirect cmd f env).proceed = false := by
    simp [input_redirect, hv, hopen]
  refine ⟨by rw [child_run]; simp [hproc], ?_, ?_⟩
  · intro hb; simp [fork_child, hb]
  · intro hb; intro o; cases o <;> simp [fork_child, hb]

/-- Concrete instantiation of claim C3 (amended) at a foreground command with
an unopenable input file. -/
theorem c3_witness :
    wc_in_cmd.input_file.isSome = true ∧ env_no_input.open_input_ok = false ∧
    ((child_run wc_in_cmd false env_no_input).ending = ChildEnd.failed 1 ∧
     ((wc_in_cmd.run_in_background && !false) = false →
         (fork_child wc_in_cmd false false st0 77 (Outcome.exited 1)).status = 1) ∧
     ((wc_in_cmd.run_in_background && !false) = true →
         ∀ o, (fork_child wc_in_cmd false false st0 77 o).status = st0.status)) :=
  ⟨rfl, rfl, c3_input_open_failure wc_in_cmd false env_no_input st0 77 rfl rfl⟩

/-- Claim C4 (counterexample): the read loop tests only the first character
of the line, so the line consisting of three spaces then a command is
silently skipped (never dispatched) although it is neither whitespace-only
nor a comment, contradicting the claimed exact skip condition. -/
theorem c4_cex_leading_space_line_skipped :
    (shell_iteration (fun _ => none) st0 ("   ls\n".data)).2 = false ∧
    spec_skip_line ("   ls\n".data) = false := by
  refine ⟨by decide, by decide⟩

/-- Claim C4 (amended): one read-loop turn skips the line — loops back
without dispatching — exactly when the line's first character is whitespace
or the comment marker, and a skipped turn leaves the last-foreground-status
int unchanged.  Blank/whitespace-only lines and comment lines are thus all
skipped, but so is any line that merely begins with whitespace. -/
theorem c4_skip_first_char_rule (term : Int → Option Outcome) (st : ShellState)
    (line : List Char) :
    ((shell_iteration term st line).2 = false ↔
        ∃ c rest, line = c :: rest ∧ (isspaceChar c = true ∨ c = '#')) ∧
    (skip_line line = true → (shell_iteration term st line).1.status = st.status) := by
  constructor
  · cases line with
    | nil => simp [shell_iteration, skip_line]
    | cons c rest =>
      simp only [shell_iteration, skip_line, Bool.not_eq_false', Bool.or_eq_true,
        decide_eq_true_eq]
      constructor
      · intro h; exact ⟨c, rest, rfl, h⟩
      · rintro ⟨c2, rest2, heq, h⟩
        injection heq with h1 h2
        subst h1
        exact h
  · intro _; rfl

/-- Concrete instantiation of claim C4 (amended): a comment line is skipped
and the status int is unchanged. -/
theorem c4_witness :
    skip_line ("# note\n".data) = true ∧
    (shell_iteration (fun _ => none) st0 ("# note\n".data)).1.status = st0.status :=
  ⟨by decide, (c4_skip_first_char_rule (fun _ => none) st0 ("# note\n".data)).2 (by decide)⟩

/-- Claim C10 (counterexample): it is not true that every token list ending
in a bare redirection operator makes the parse dereference a null token: in
the line a > < the final bare operator is consumed as the output path of the
preceding operator and parsing succeeds. -/
theorem c10_cex_final_operator_consumed_as_path :
    ¬ ∀ (tokens : List (List Char)),
        (tokens.getLast? = some ['<'] ∨ tokens.getLast? = some ['>']) →
        parse_command_line tokens = none := by
  intro h
  exact absurd (h [['a'], ['>'], ['<']] (Or.inl rfl)) (by decide)

/-- Unfolding equation for parse_args_loop on a nonempty token list. -/
theorem parse_args_loop_cons (t : List Char) (rest args : List (List Char))
    (inf outf : Option (List Char)) :
    parse_args_loop (t :: rest) args inf outf =
      if t = ['<'] then
        match rest with
        | [] => none
        | f :: rest2 => parse_args_loop rest2 args (some f) outf
      else if t = ['>'] then
        match rest with
        | [] => none
        | f :: rest2 => parse_args_loop rest2 args inf (some f)
      else
        parse_args_loop rest (args ++ [t]) inf outf := by
  rw [parse_args_loop.eq_def]

/-- Unfolding equation for parse_command_line on a nonempty token list. -/
theorem parse_command_line_cons (cmd : List Char) (rest : List (List Char)) :
    parse_command_line (cmd :: rest) =
      match parse_args_loop rest [cmd] none none with
      | none => none
      | some (args, inf, outf) =>
        if 1 < args.length ∧ args.getLast? = some ['&'] then
          some ⟨cmd, args.dropLast, inf, outf, true⟩
        else
          some ⟨cmd, args, inf, outf, false⟩ := rfl

/-- The token loop of the parser succeeds whenever the token list does not
end in a bare redirection operator: the null dereference can only happen when
an operator-position token is last. -/
theorem parse_args_loop_isSome :
    ∀ (n : Nat) (toks args : List (List Char)) (inf outf : Option (List Char)),
      toks.length ≤ n →
      toks.getLast? ≠ some ['<'] → toks.getLast? ≠ some ['>'] →
      (parse_args_loop toks args inf outf).isSome = true := by
  intro n
  induction n with
  | zero =>
    intro toks args inf outf hlen h1 h2
    have hnil : toks = [] := List.length_eq_zero.mp (Nat.le_zero.mp hlen)
    subst hnil; rfl
  | succ n ih =>
    intro toks args inf outf hlen h1 h2
    match toks with
    | [] => rfl
    | t :: rest =>
      have hglrest : rest ≠ [] → (t :: rest).getLast? = rest.getLast? := by
        intro hne
        match rest with
        | r :: rest2 => exact List.getLast?_cons_cons
      rw [parse_args_loop_cons]
      by_cases ht1 : t = ['<']
      · rw [if_pos ht1]
        match rest with
        | [] => exact absurd (by rw [ht1]; rfl) h1
        | f :: rest2 =>
          have hgl : (t :: f :: rest2).getLast? = (f :: rest2).getLast? :=
            List.getLast?_cons_cons
          have hgl2 : rest2 ≠ [] → (f :: rest2).getLast? = rest2.getLast? := by
            intro hne
            match rest2 with
            | r :: rest3 => exact List.getLast?_cons_cons
          show (parse_args_loop rest2 args (some f) outf).isSome = true
          match rest2 with
          | [] =>
            apply ih [] args (some f) outf (by simp) (by simp) (by simp)
          | r :: rest3 =>
            apply ih (r :: rest3) args (some f) outf
            · simp at hlen ⊢; omega
            · rw [hgl, hgl2 (by simp)] at h1; exact h1
            · rw [hgl, hgl2 (by simp)] at h2; exact h2
      · rw [if_neg ht1]
        by_cases ht2 : t = ['>']
        · rw [if_pos ht2]
          match rest with
          | [] => exact absurd (by rw [ht2]; rfl) h2
          | f :: rest2 =>
            have hgl : (t :: f :: rest2).getLast? = (f :: rest2).getLast? :=
              List.getLast?_cons_cons
            have hgl2 : rest2 ≠ [] → (f :: rest2).getLast? = rest2.getLast? := by
              intro hne
              match rest2 with
              | r :: rest3 => exact List.getLast?_cons_cons
            show (parse_args_loop rest2 args inf (some f)).isSome = true
            match rest2 with
            | [] =>
              apply ih [] args inf (some f) (by simp) (by simp) (by simp)
            | r :: rest3 =>
              apply ih (r :: rest3) args inf (some f)
              · simp at hlen ⊢; omega
              · rw [hgl, hgl2 (by simp)] at h1; exact h1
              · rw [hgl, hgl2 (by simp)] at h2; exact h2
        · rw [if_neg ht2]
          show (parse_args_loop rest (args ++ [t]) inf outf).isSome = true
          match rest with
          | [] => apply ih [] (args ++ [t]) inf outf (by simp) (by simp) (by simp)
          | r :: rest2 =>
            apply ih (r :: rest2) (args ++ [t]) inf outf
            · simp at hlen ⊢; omega
            · rw [hglrest (by simp)] at h1; exact h1
            · rw [hglrest (by simp)] at h2; exact h2

/-- Claim C10 (amended): after an operator-position bare redirection token
the parser unconditionally dereferences the next token, so the parse is
undefined (null dereference) when an operator-position < or > has no
following token, as in the line ls <; a final bare operator consumed as a
path by a preceding operator parses fine (see the counterexample); and under
the precondition that the final token is not a bare < or > — hence every
operator is followed by a token — the null-dereference branch is unreachable
and parsing a nonempty token list always yields a command. -/
theorem c10_parse_defined_unless_trailing_operator (tokens : List (List Char))
    (hne : tokens ≠ [])
    (h1 : tokens.getLast? ≠ some ['<']) (h2 : tokens.getLast? ≠ some ['>']) :
    (parse_command_line tokens).isSome = true ∧
    parse_command_line [['l', 's'], ['<']] = none := by
  refine ⟨?_, by decide⟩
  match tokens with
  | cmd :: rest =>
    have hrest : (parse_args_loop rest [cmd] none none).isSome = true := by
      match rest with
      | [] => rfl
      | r :: rest2 =>
        have hgl : (cmd :: r :: rest2).getLast? = (r :: rest2).getLast? :=
          List.getLast?_cons_cons
        apply parse_args_loop_isSome (r :: rest2).length (r :: rest2) [cmd] none none le_rfl
        · rw [hgl] at h1; exact h1
        · rw [hgl] at h2; exact h2
    obtain ⟨res, hres⟩ := Option.isSome_iff_exists.mp hrest
    obtain ⟨args, inf, outf⟩ := res
    rw [parse_command_line_cons, hres]
    show (if 1 < args.length ∧ args.getLast? = some ['&'] then
        some (⟨cmd, args.dropLast, inf, outf, true⟩ : CommandLine)
      else some ⟨cmd, args, inf, outf, false⟩).isSome = true
    split <;> rfl

/-- Concrete instantiation of claim C10 (amended) at the token list of the
line ls input.txt. -/
theorem c10_witness :
    ([['l', 's'], ['i', 'n']] : List (List Char)) ≠ [] ∧
    ([['l', 's'], ['i', 'n']] : List (List Char)).getLast? ≠ some ['<'] ∧
    ([['l', 's'], ['i', 'n']] : List (List Char)).getLast? ≠ some ['>'] ∧
    ((parse_command_line [['l', 's'], ['i', 'n']]).isSome = true ∧
      parse_command_line [['l', 's'], ['<']] = none) :=
  ⟨by decide, by decide, by decide,
   c10_parse_defined_unless_trailing_operator [['l', 's'], ['i', 'n']]
     (by decide) (by decide) (by decide)⟩

/-- Unfolding equation for variable_expansion when no token occurrence
remains: the residue is emitted without its last character. -/
theorem variable_expansion_none (pid s : List Char) (h : findDD s = none) :
    variable_expansion pid s = s.dropLast := by
  rw [variable_expansion.eq_def]
  split
  · rfl
  · rename_i pr heq
    rw [h] at heq
    cases heq

/-- Unfolding equation for variable_expansion at a token occurrence: the
prefix, then the pid string, then the expansion of the suffix. -/
theorem variable_expansion_some (pid s p r : List Char)
    (h : findDD s = some (p, r)) :
    variable_expansion pid s = p ++ pid ++ variable_expansion pid r := by
  rw [variable_expansion.eq_def]
  split
  · rename_i heq
    rw [h] at heq
    cases heq
  · rename_i pr heq
    rw [h] at heq
    cases heq
    rfl

/-- Unfolding equation for expandSpec on a string of length at least two. -/
theorem expandSpec_cons2 (pid : List Char) (c1 c2 : Char) (rest : List Char) :
    expandSpec pid (c1 :: c2 :: rest) =
      if c1 = '$' ∧ c2 = '$' then pid ++ expandSpec pid rest
      else c1 :: expandSpec pid (c2 :: rest) := by
  rw [expandSpec.eq_def]

/-- The expansion commutes with a leading character that does not start a
token occurrence. -/
theorem variable_expansion_cons (pid : List Char) (c1 c2 : Char) (rest : List Char)
    (h : ¬(c1 = '$' ∧ c2 = '$')) :
    variable_expansion pid (c1 :: c2 :: rest)
      = c1 :: variable_expansion pid (c2 :: rest) := by
  cases hfd : findDD (c2 :: rest) with
  | none =>
    have hfd2 : findDD (c1 :: c2 :: rest) = none := by
      rw [findDD, if_neg h, hfd]
    rw [variable_expansion_none pid _ hfd2, variable_expansion_none pid _ hfd]
    rfl
  | some pr =>
    have hfd2 : findDD (c1 :: c2 :: rest) = some (c1 :: pr.1, pr.2) := by
      rw [findDD, if_neg h, hfd]
    rw [variable_expansion_some pid _ _ _ hfd2,
      variable_expansion_some pid (c2 :: rest) pr.1 pr.2 (by rw [hfd])]
    simp

/-- On a line with no token occurrence the spec-side expansion is the
identity. -/
theorem expandSpec_of_findDD_none (pid : List Char) :
    ∀ s : List Char, findDD s = none → expandSpec pid s = s := by
  intro s
  induction s with
  | nil => intro _; rfl
  | cons c t ih =>
    intro h
    match t with
    | [] => rfl
    | c2 :: rest =>
      rw [findDD] at h
      by_cases hdd : c = '$' ∧ c2 = '$'
      · rw [if_pos hdd] at h; cases h
      · rw [if_neg hdd] at h
        cases hfd : findDD (c2 :: rest) with
        | none => rw [expandSpec_cons2, if_neg hdd, ih hfd]
        | some pr => rw [hfd] at h; cases h

/-- The source expansion applied to the newline-terminated raw line equals
the spec-side left-to-right replacement applied to the line content. -/
theorem variable_expansion_newline (pid : List Char) :
    ∀ (n : Nat) (s : List Char), s.length ≤ n → '\n' ∉ s →
      variable_expansion pid (s ++ ['\n']) = expandSpec pid s := by
  intro n
  induction n with
  | zero =>
    intro s hlen hmem
    have hnil : s = [] := List.length_eq_zero.mp (Nat.le_zero.mp hlen)
    subst hnil
    rw [List.nil_append, variable_expansion_none pid ['\n'] rfl]
    rfl
  | succ n ih =>
    intro s hlen hmem
    match s with
    | [] =>
      rw [List.nil_append, variable_expansion_none pid ['\n'] rfl]
      rfl
    | [c] =>
      have hfd : findDD ([c] ++ ['\n']) = none := by
        show findDD [c, '\n'] = none
        rw [findDD, if_neg (by rintro ⟨h1, h2⟩; exact absurd h2 (by decide))]
        rfl
      rw [variable_expansion_none pid _ hfd]
      rfl
    | c1 :: c2 :: rest =>
      by_cases hdd : c1 = '$' ∧ c2 = '$'
      · obtain ⟨h1, h2⟩ := hdd
        subst h1; subst h2
        have hfd : findDD (('$' :: '$' :: rest) ++ ['\n']) = some ([], rest ++ ['\n']) := by
          show findDD ('$' :: '$' :: (rest ++ ['\n'])) = _
          rw [findDD, if_pos ⟨rfl, rfl⟩]
        have hrest : '\n' ∉ rest := fun hr => hmem (by simp [hr])
        rw [variable_expansion_some pid _ _ _ hfd,
          ih rest (by simp at hlen ⊢; omega) hrest,
          expandSpec_cons2, if_pos ⟨rfl, rfl⟩]
        rfl
      · have heq : (c1 :: c2 :: rest) ++ ['\n'] = c1 :: c2 :: (rest ++ ['\n']) := rfl
        have h2 : '\n' ∉ (c2 :: rest) := fun hr => hmem (List.mem_cons_of_mem c1 hr)
        rw [heq, variable_expansion_cons pid c1 c2 (rest ++ ['\n']) hdd]
        have harg : c2 :: (rest ++ ['\n']) = (c2 :: rest) ++ ['\n'] := rfl
        rw [harg, ih (c2 :: rest) (by simp at hlen ⊢; omega) h2,
          expandSpec_cons2, if_neg hdd]

/-- Claim C2: on any raw line (content with no newline, plus the terminating
newline of getline), the source expansion replaces every occurrence of the
two-character token, left to right without overlap, by the decimal pid
string, preserves every other character of the content verbatim, and when
the content has no occurrence it returns the content unchanged. -/
theorem c2_expansion_replaces_token (p : Nat) (s : List Char) (h : '\n' ∉ s) :
    variable_expansion (pid_string p) (s ++ ['\n']) = expandSpec (pid_string p) s ∧
    (hasDD s = false →
      variable_expansion (pid_string p) (s ++ ['\n']) = s) := by
  have h1 := variable_expansion_newline (pid_string p) s.length s le_rfl h
  refine ⟨h1, ?_⟩
  intro hno
  rw [h1]
  have hfd : findDD s = none := by
    cases hfd : findDD s with
    | none => rfl
    | some pr => rw [hasDD, hfd] at hno; cases hno
  exact expandSpec_of_findDD_none (pid_string p) s hfd

/-- Concrete instantiation of claim C2 at the line echo $$ with pid 7. -/
theorem c2_witness :
    '\n' ∉ ("echo $$".data) ∧
    (variable_expansion (pid_string 7) ("echo $$".data ++ ['\n'])
        = expandSpec (pid_string 7) ("echo $$".data) ∧
     (hasDD ("echo $$".data) = false →
        variable_expansion (pid_string 7) ("echo $$".data ++ ['\n']) = "echo $$".data)) :=
  ⟨by decide, c2_expansion_replaces_token 7 ("echo $$".data) (by decide)⟩

/-- Unfolding equation for the reap loop body with fuel remaining. -/
theorem check_bg_loop_succ (term : Int → Option Outcome) (arr_length fuel i : Nat)
    (st : ReapState) :
    check_bg_loop term arr_length (fuel + 1) i st =
      if i < arr_length then
        if waitpid_nohang term st.reaped (st.mem i) = st.mem i then
          check_bg_loop term arr_length fuel i
            ⟨(remove_val_at_index st.mem st.count i).1,
             (remove_val_at_index st.mem st.count i).2,
             st.mem i :: st.reaped,
             match term (st.mem i) with
             | some o => st.reports ++ [(st.mem i, o)]
             | none => st.reports⟩
        else
          check_bg_loop term arr_length fuel (i + 1) st
      else st := by
  rw [check_bg_loop.eq_def]

/-- Once every remaining slot holds a pid on which waitpid reports nothing,
the rest of the reap loop is a no-op. -/
theorem check_bg_loop_noop (term : Int → Option Outcome) (arr_length : Nat) :
    ∀ (fuel i : Nat) (st : ReapState),
      arr_length - i ≤ fuel →
      (∀ j, i ≤ j → j < arr_length →
        waitpid_nohang term st.reaped (st.mem j) ≠ st.mem j) →
      check_bg_loop term arr_length fuel i st = st := by
  intro fuel
  induction fuel with
  | zero => intro i st _ _; rfl
  | succ fuel ih =>
    intro i st hfuel hno
    rw [check_bg_loop_succ]
    by_cases hi : i < arr_length
    · rw [if_pos hi, if_neg (hno i le_rfl hi)]
      exact ih (i + 1) st (by omega) (fun j hj1 hj2 => hno j (by omega) hj2)
    · rw [if_neg hi]

/-- Invariant lemma for one reap pass over original registry content L:
having processed the prefix pre (with the loop index sitting at the number of
surviving pids of pre) and with suf still unprocessed, the loop ends with the
registry holding exactly the surviving pids of L in order and the reports
listing each terminated pid of L exactly once, in order. -/
theorem check_bg_loop_run (term : Int → Option Outcome) (L : List Int)
    (hnd : L.Nodup) (hpos : ∀ p ∈ L, 0 < p) :
    ∀ (suf pre : List Int) (st : ReapState) (fuel : Nat),
      L = pre ++ suf →
      st.count = (alive_filter term pre).length + suf.length →
      (∀ j, j < st.count → st.mem j = (alive_filter term pre ++ suf).getD j 0) →
      (∀ j, j < L.length → st.mem j ∈ L) →
      (∀ q : Int, q ∈ st.reaped ↔ q ∈ pre ∧ (term q).isSome) →
      st.reports = reports_of term pre →
      suf.length + L.length ≤ fuel →
      (check_bg_loop term L.length fuel ((alive_filter term pre).length) st).count
          = (alive_filter term L).length ∧
      (∀ j, j < (alive_filter term L).length →
          (check_bg_loop term L.length fuel ((alive_filter term pre).length) st).mem j
            = (alive_filter term L).getD j 0) ∧
      (check_bg_loop term L.length fuel ((alive_filter term pre).length) st).reports
          = reports_of term L := by
  intro suf
  induction suf with
  | nil =>
    intro pre st fuel hL hcount hmem hmemL hreaped hreports hfuel
    rw [List.append_nil] at hL
    subst hL
    simp only [List.length_nil] at hcount hfuel
    have hstop : check_bg_loop term L.length fuel
        ((alive_filter term L).length) st = st := by
      apply check_bg_loop_noop
      · omega
      · intro j _ hj2
        have hq : st.mem j ∈ L := hmemL j hj2
        have hqpos : 0 < st.mem j := hpos _ hq
        cases hterm : term (st.mem j) with
        | some o =>
          have hrq : st.mem j ∈ st.reaped :=
            (hreaped _).mpr ⟨hq, by rw [hterm]; rfl⟩
          have hv : waitpid_nohang term st.reaped (st.mem j) = -1 := by
            simp [waitpid_nohang, hrq]
          rw [hv]; omega
        | none =>
          have hrq : st.mem j ∉ st.reaped := by
            intro hcon
            have hs := ((hreaped _).mp hcon).2
            rw [hterm] at hs
            cases hs
          have hv : waitpid_nohang term st.reaped (st.mem j) = 0 := by
            simp [waitpid_nohang, hrq, hterm]
          rw [hv]; omega
    rw [hstop]
    refine ⟨by omega, ?_, hreports⟩
    intro j hj
    have hm := hmem j (by omega)
    rw [List.append_nil] at hm
    exact hm
  | cons p suf2 ih =>
    intro pre st fuel hL hcount hmem hmemL hreaped hreports hfuel
    simp only [List.length_cons] at hcount hfuel
    have hlen_le : (alive_filter term pre).length ≤ pre.length :=
      List.length_filter_le _ _
    have hLlen : L.length = pre.length + (suf2.length + 1) := by
      rw [hL, List.length_append, List.length_cons]
    have hi_lt_count : (alive_filter term pre).length < st.count := by omega
    have hi_lt_n : (alive_filter term pre).length < L.length := by omega
    have hcount_le : st.count ≤ L.length := by omega
    have hpL : p ∈ L := by
      rw [hL]; exact List.mem_append_right _ (List.mem_cons_self p suf2)
    have hppos : 0 < p := hpos p hpL
    have hndL := hnd
    rw [hL] at hndL
    have hdisj := (List.nodup_append.mp hndL).2.2
    have hpnpre : p ∉ pre := fun hcon => hdisj hcon (List.mem_cons_self p suf2)
    have hpnreaped : p ∉ st.reaped := fun hcon => hpnpre ((hreaped p).mp hcon).1
    have hmemi : st.mem ((alive_filter term pre).length) = p := by
      rw [hmem _ hi_lt_count, List.getD_append_right _ _ _ _ le_rfl]
      simp
    cases fuel with
    | zero => exact absurd hfuel (by omega)
    | succ fuel2 =>
      rw [check_bg_loop_succ, if_pos hi_lt_n, hmemi]
      have hfuel2 : suf2.length + L.length ≤ fuel2 := by omega
      cases hterm : term p with
      | some o =>
        have hw : waitpid_nohang term st.reaped p = p := by
          simp [waitpid_nohang, hpnreaped, hterm]
        rw [if_pos hw]
        have halive2 : alive_filter term (pre ++ [p]) = alive_filter term pre := by
          rw [alive_filter, List.filter_append]
          simp [alive_filter, hterm]
        have h1 : L = (pre ++ [p]) ++ suf2 := by rw [hL, List.append_assoc, List.singleton_append]
        have h2 : ((remove_val_at_index st.mem st.count
            ((alive_filter term pre).length)).2 : Nat)
              = (alive_filter term (pre ++ [p])).length + suf2.length := by
          simp only [remove_val_at_index]
          rw [halive2]; omega
        have h3 : ∀ j, j < (remove_val_at_index st.mem st.count
            ((alive_filter term pre).length)).2 →
            (remove_val_at_index st.mem st.count
              ((alive_filter term pre).length)).1 j
              = (alive_filter term (pre ++ [p]) ++ suf2).getD j 0 := by
          simp only [remove_val_at_index]
          rw [halive2]
          intro j hj
          by_cases hcase : (alive_filter term pre).length ≤ j
          · rw [if_pos ⟨hcase, by omega⟩, hmem (j + 1) (by omega),
              List.getD_append_right _ _ _ _ (by omega),
              List.getD_append_right _ _ _ _ hcase]
            have hidx : j + 1 - (alive_filter term pre).length
                = (j - (alive_filter term pre).length) + 1 := by omega
            rw [hidx, List.getD_cons_succ]
          · rw [if_neg (fun hc => hcase hc.1), hmem j (by omega),
              List.getD_append _ _ _ _ (by omega),
              List.getD_append _ _ _ _ (by omega)]
        have h4 : ∀ j, j < L.length →
            (remove_val_at_index st.mem st.count
              ((alive_filter term pre).length)).1 j ∈ L := by
          simp only [remove_val_at_index]
          intro j hj
          by_cases hcase : (alive_filter term pre).length ≤ j ∧ j + 1 < st.count
          · rw [if_pos hcase]
            exact hmemL (j + 1) (by omega)
          · rw [if_neg hcase]
            exact hmemL j hj
        have h5 : ∀ q : Int, q ∈ p :: st.reaped ↔
            q ∈ pre ++ [p] ∧ (term q).isSome := by
          intro q
          constructor
          · intro hq
            rcases List.mem_cons.mp hq with hq | hq
            · subst hq
              exact ⟨List.mem_append_right _ (List.mem_singleton.mpr rfl),
                by rw [hterm]; rfl⟩
            · obtain ⟨ha, hb⟩ := (hreaped q).mp hq
              exact ⟨List.mem_append_left _ ha, hb⟩
          · rintro ⟨hq1, hq2⟩
            rcases List.mem_append.mp hq1 with hq1 | hq1
            · exact List.mem_cons_of_mem _ ((hreaped q).mpr ⟨hq1, hq2⟩)
            · have hqp : q = p := List.mem_singleton.mp hq1
              subst hqp
              exact List.mem_cons_self _ _
        have h6 : st.reports ++ [(p, o)] = reports_of term (pre ++ [p]) := by
          rw [hreports, reports_of, reports_of, List.filterMap_append]
          congr 1
          simp [List.filterMap_cons, hterm]
        have hres := ih (pre ++ [p])
            ⟨(remove_val_at_index st.mem st.count ((alive_filter term pre).length)).1,
             (remove_val_at_index st.mem st.count ((alive_filter term pre).length)).2,
             p :: st.reaped,
             st.reports ++ [(p, o)]⟩ fuel2 h1 h2 h3 h4 h5 h6 (by omega)
        rw [halive2] at hres
        exact hres
      | none =>
        have hw : waitpid_nohang term st.reaped p = 0 := by
          simp [waitpid_nohang, hpnreaped, hterm]
        rw [if_neg (by rw [hw]; omega)]
        have halive2 : alive_filter term (pre ++ [p])
            = alive_filter term pre ++ [p] := by
          rw [alive_filter, List.filter_append]
          congr 1
          simp [alive_filter, hterm]
        have h1 : L = (pre ++ [p]) ++ suf2 := by rw [hL, List.append_assoc, List.singleton_append]
        have h2 : st.count = (alive_filter term (pre ++ [p])).length + suf2.length := by
          rw [halive2, List.length_append]
          simp
          omega
        have h3 : ∀ j, j < st.count →
            st.mem j = (alive_filter term (pre ++ [p]) ++ suf2).getD j 0 := by
          intro j hj
          rw [halive2, List.append_assoc]
          exact hmem j hj
        have h5 : ∀ q : Int, q ∈ st.reaped ↔
            q ∈ pre ++ [p] ∧ (term q).isSome := by
          intro q
          constructor
          · intro hq
            obtain ⟨ha, hb⟩ := (hreaped q).mp hq
            exact ⟨List.mem_append_left _ ha, hb⟩
          · rintro ⟨hq1, hq2⟩
            rcases List.mem_append.mp hq1 with hq1 | hq1
            · exact (hreaped q).mpr ⟨hq1, hq2⟩
            · exfalso
              have hqp : q = p := List.mem_singleton.mp hq1
              subst hqp
              rw [hterm] at hq2
              cases hq2
        have h6 : st.reports = reports_of term (pre ++ [p]) := by
          rw [hreports, reports_of, reports_of, List.filterMap_append]
          simp [List.filterMap_cons, hterm]
        have hres := ih (pre ++ [p]) st fuel2 h1 h2 h3 hmemL h5 h6 (by omega)
        rw [halive2, List.length_append] at hres
        simp only [List.length_singleton] at hres
        exact hres

/-- Claim C9: in one reap pass over a registry of distinct positive pids,
every tracked pid whose child has terminated is reported exactly once —
together with its exit or signal outcome, in registry order — and removed,
while the surviving pids keep their relative order and pids whose children
have not terminated remain tracked.  The pass never blocks: every status
check in the loop is the WNOHANG waitpid modelled by waitpid_nohang. -/
theorem c9_reap_pass (term : Int → Option Outcome) (reg : Registry) (status : Int)
    (hnd : reg.toList.Nodup) (hpos : ∀ p ∈ reg.toList, 0 < p) :
    (check_background_procs term reg status).regs.toList
        = alive_filter term reg.toList ∧
    (check_background_procs term reg status).reports
        = reports_of term reg.toList := by
  have hlenL : reg.toList.length = reg.count := by
    rw [Registry.toList, List.length_map, List.length_range]
  have hmem0 : ∀ j, j < (⟨reg.mem, reg.count, [], []⟩ : ReapState).count →
      (⟨reg.mem, reg.count, [], []⟩ : ReapState).mem j
        = (alive_filter term [] ++ reg.toList).getD j 0 := by
    intro j hj
    show reg.mem j = (alive_filter term [] ++ reg.toList).getD j 0
    have hnilapp : (alive_filter term [] ++ reg.toList) = reg.toList := rfl
    rw [hnilapp, List.getD_eq_getElem _ _ (by rw [hlenL]; exact hj)]
    simp [Registry.toList]
  have hrun := check_bg_loop_run term reg.toList hnd hpos reg.toList []
      ⟨reg.mem, reg.count, [], []⟩ (2 * reg.count + 1)
      rfl (by simp [alive_filter, hlenL]) hmem0
      (by intro j hj
          rw [hlenL] at hj
          exact List.mem_map_of_mem reg.mem (List.mem_range.mpr hj))
      (by intro q; simp) rfl (by rw [hlenL]; omega)
  have hzero : (alive_filter term ([] : List Int)).length = 0 := rfl
  rw [hzero, hlenL] at hrun
  obtain ⟨hc, hm, hr⟩ := hrun
  constructor
  · show (List.range (check_bg_loop term reg.count (2 * reg.count + 1) 0
        ⟨reg.mem, reg.count, [], []⟩).count).map
      (check_bg_loop term reg.count (2 * reg.count + 1) 0
        ⟨reg.mem, reg.count, [], []⟩).mem = alive_filter term reg.toList
    apply List.ext_getElem
    · rw [List.length_map, List.length_range]
      exact hc
    · intro n h1 h2
      have hn : n < (alive_filter term reg.toList).length := h2
      rw [List.getElem_map, List.getElem_range, hm n hn]
      exact List.getD_eq_getElem _ _ hn
  · exact hr

/-- Concrete instantiation of claim C9: reaping the registry tracking pids
3, 5, 7 with 3 exited (code 0) and 7 killed by signal 9 reports those two in
order and leaves only 5 tracked. -/
theorem c9_witness :
    reg_w.toList.Nodup ∧ (∀ p ∈ reg_w.toList, 0 < p) ∧
    ((check_background_procs term_w reg_w 0).regs.toList
        = alive_filter term_w reg_w.toList ∧
     (check_background_procs term_w reg_w 0).reports
        = reports_of term_w reg_w.toList) :=
  ⟨by decide, by decide, c9_reap_pass term_w reg_w 0 (by decide) (by decide)⟩

end Smallsh
